import Mathlib

/-!
Verification of the schema library (kaimast/schema): a shallow embedding of
the value codec (src/value.rs), the schema-indexed record accessors
(src/lib.rs) and the schema/entry builders (src/lib.rs, src/builders.rs),
together with proofs of the specified properties.

Modelling conventions:
* Rust byte slices and vectors of bytes are `List Nat` (each element a byte).
* Rust `String` payloads are their UTF-8 byte sequences (`List Nat`);
  Rust string equality is byte equality.
* `f64` and `i64` payloads are carried as their 64-bit patterns (a `Nat`
  below `2 ^ 64`); this is exactly what the bincode codec reads and writes.
* bincode (v1, legacy configuration as used by `bincode::serialize` and
  `bincode::deserialize`) encodes integers fixed-width little-endian,
  strings as a u64 length prefix followed by the UTF-8 bytes, and booleans
  as one byte (0 or 1); deserialization from a slice tolerates trailing
  bytes, checks UTF-8 validity for strings and rejects boolean bytes other
  than 0 and 1.
* Rust panics (`unwrap`, `expect`, `panic!` macro calls) are modelled by a
  dedicated `panicked` constructor, kept distinct from recoverable errors.
* The primary model is the build without the optional `json` cargo feature
  (the five primitive variants); a separate extension with the `Json`
  variant appears further below for the claims that mention it.
-/

/-- Error type of src/lib.rs (`SchemaError`). -/
inductive SchemaError where
  | NoSuchField : String → SchemaError
  | EncodingError : SchemaError
deriving DecidableEq, Repr

/-- Type tags of src/value.rs (`ValueType`), json feature disabled. -/
inductive ValueType where
  | String : ValueType
  | F64 : ValueType
  | I64 : ValueType
  | U64 : ValueType
  | Bool : ValueType
deriving DecidableEq, Repr

/-- Tagged values of src/value.rs (`Value`), json feature disabled.
String payloads are UTF-8 bytes; F64 and I64 payloads are 64-bit patterns. -/
inductive Value where
  | String : List Nat → Value
  | F64 : Nat → Value
  | I64 : Nat → Value
  | U64 : Nat → Value
  | Bool : Bool → Value
deriving DecidableEq, Repr

/-- The tag (the `ValueType`) of a `Value` variant. -/
def Value.tag : Value → ValueType
  | .String _ => .String
  | .F64 _ => .F64
  | .I64 _ => .I64
  | .U64 _ => .U64
  | .Bool _ => .Bool

/-- `toLE k n`: the `k` little-endian bytes of `n` (bincode fixint encoding). -/
def toLE : Nat → Nat → List Nat
  | 0, _ => []
  | k + 1, n => n % 256 :: toLE k (n / 256)

/-- Read a little-endian byte sequence back into a number. -/
def fromLE : List Nat → Nat
  | [] => 0
  | b :: rest => b + 256 * fromLE rest

/-- Read exactly `k` bytes from the front of the input, returning the rest;
fails (as the bincode reader does) when fewer than `k` bytes remain. -/
def readN (k : Nat) (data : List Nat) : Option (List Nat × List Nat) :=
  if k ≤ data.length then some (data.take k, data.drop k) else none

/-- A UTF-8 continuation byte (0x80 to 0xBF). -/
def utf8Cont (b : Nat) : Bool := decide (0x80 ≤ b) && decide (b ≤ 0xBF)

/-- UTF-8 validity of a byte sequence, as checked by `str::from_utf8`
(shortest-form encodings only, surrogates excluded). -/
def validUtf8 : List Nat → Bool
  | [] => true
  | b :: rest =>
    if b ≤ 0x7F then validUtf8 rest
    else if 0xC2 ≤ b && b ≤ 0xDF then
      match rest with
      | c1 :: rest2 => utf8Cont c1 && validUtf8 rest2
      | [] => false
    else if b == 0xE0 then
      match rest with
      | c1 :: c2 :: rest2 =>
        (decide (0xA0 ≤ c1) && decide (c1 ≤ 0xBF)) && utf8Cont c2 && validUtf8 rest2
      | _ => false
    else if (0xE1 ≤ b && b ≤ 0xEC) || b == 0xEE || b == 0xEF then
      match rest with
      | c1 :: c2 :: rest2 => utf8Cont c1 && utf8Cont c2 && validUtf8 rest2
      | _ => false
    else if b == 0xED then
      match rest with
      | c1 :: c2 :: rest2 =>
        (decide (0x80 ≤ c1) && decide (c1 ≤ 0x9F)) && utf8Cont c2 && validUtf8 rest2
      | _ => false
    else if b == 0xF0 then
      match rest with
      | c1 :: c2 :: c3 :: rest2 =>
        (decide (0x90 ≤ c1) && decide (c1 ≤ 0xBF)) && utf8Cont c2 && utf8Cont c3 &&
          validUtf8 rest2
      | _ => false
    else if 0xF1 ≤ b && b ≤ 0xF3 then
      match rest with
      | c1 :: c2 :: c3 :: rest2 =>
        utf8Cont c1 && utf8Cont c2 && utf8Cont c3 && validUtf8 rest2
      | _ => false
    else if b == 0xF4 then
      match rest with
      | c1 :: c2 :: c3 :: rest2 =>
        (decide (0x80 ≤ c1) && decide (c1 ≤ 0x8F)) && utf8Cont c2 && utf8Cont c3 &&
          validUtf8 rest2
      | _ => false
    else false

/-- `Value::serialize_inner` (src/value.rs lines 194-210): bincode encoding
of the payload alone (no variant tag). -/
def Value.serialize_inner : Value → List Nat
  | .String s => toLE 8 s.length ++ s
  | .F64 bits => toLE 8 bits
  | .I64 bits => toLE 8 bits
  | .U64 n => toLE 8 n
  | .Bool b => [if b then 1 else 0]

/-- `Value::from_bytes` (src/value.rs lines 212-242), json feature disabled:
decode a payload against a declared type; `none` is the bincode decode
error. -/
def Value.from_bytes (data : List Nat) (value_type : ValueType) : Option Value :=
  match value_type with
  | .String =>
    match readN 8 data with
    | none => none
    | some (lenBytes, rest) =>
      match readN (fromLE lenBytes) rest with
      | none => none
      | some (sBytes, _) => if validUtf8 sBytes then some (.String sBytes) else none
  | .F64 =>
    match readN 8 data with
    | none => none
    | some (p, _) => some (.F64 (fromLE p))
  | .I64 =>
    match readN 8 data with
    | none => none
    | some (p, _) => some (.I64 (fromLE p))
  | .U64 =>
    match readN 8 data with
    | none => none
    | some (p, _) => some (.U64 (fromLE p))
  | .Bool =>
    match data with
    | [] => none
    | b :: _ => if b == 0 then some (.Bool false) else if b == 1 then some (.Bool true) else none

/-- The representation invariant every Rust `Value` satisfies by typing:
string payloads are valid UTF-8 with a length below `2 ^ 64` (usize), and
numeric payloads are 64-bit patterns. -/
def valueWf : Value → Bool
  | .String s => validUtf8 s && decide (s.length < 2 ^ 64)
  | .F64 bits => decide (bits < 2 ^ 64)
  | .I64 bits => decide (bits < 2 ^ 64)
  | .U64 n => decide (n < 2 ^ 64)
  | .Bool _ => true

/-- IEEE-754 binary64: the bit pattern encodes a NaN (exponent all ones,
nonzero mantissa). -/
def f64IsNan (bits : Nat) : Bool :=
  decide ((bits / 2 ^ 52) % 2 ^ 11 = 2 ^ 11 - 1) && decide (bits % 2 ^ 52 ≠ 0)

/-- IEEE-754 binary64: the bit pattern encodes a zero (positive or negative). -/
def f64IsZero (bits : Nat) : Bool :=
  decide (bits = 0) || decide (bits = 2 ^ 63)

/-- IEEE-754 equality of two binary64 bit patterns, as computed by Rust
`f64::eq`: NaN compares unequal to everything (itself included), the two
zeros compare equal, and otherwise distinct patterns are distinct numbers. -/
def f64EqBits (a b : Nat) : Bool :=
  if f64IsNan a || f64IsNan b then false
  else if f64IsZero a && f64IsZero b then true
  else a == b

/-- The derived `PartialEq` on `Value` (src/value.rs line 18): structural,
except that `F64` payloads compare with `f64::eq`. -/
def rustValueEq : Value → Value → Bool
  | .String a, .String b => a == b
  | .F64 a, .F64 b => f64EqBits a b
  | .I64 a, .I64 b => a == b
  | .U64 a, .U64 b => a == b
  | .Bool a, .Bool b => a == b
  | _, _ => false

/-- A `Value` carrying a NaN `F64` payload. -/
def valueIsNan : Value → Bool
  | .F64 bits => f64IsNan bits
  | _ => false

/-- `DataEntry` (src/lib.rs lines 32-35): one byte blob per schema field. -/
structure DataEntry where
  fields : List (List Nat)
deriving DecidableEq, Repr

/-- `DataEntry::from_fields` (src/lib.rs lines 40-42). -/
def DataEntry.from_fields (fields : List (List Nat)) : DataEntry := ⟨fields⟩

/-- `Schema` (src/lib.rs lines 47-51); the `Arc` sharing wrapper is erased. -/
structure Schema where
  key : ValueType
  fields : List (String × ValueType)
deriving DecidableEq, Repr

/-- `Schema::from_parts` (src/lib.rs lines 54-56). -/
def Schema.from_parts (key : ValueType) (fields : List (String × ValueType)) : Schema :=
  ⟨key, fields⟩

/-- `Schema::get_key_type` (src/lib.rs lines 58-60). -/
def Schema.get_key_type (self : Schema) : ValueType := self.key

/-- Result of a Rust call that can return `Ok`, return `Err(SchemaError)`,
or panic. -/
inductive Res (α : Type) where
  | ok : α → Res α
  | err : SchemaError → Res α
  | panicked : Res α
deriving DecidableEq, Repr

/-- First position (and declared type) of a field name in a schema field
list; mirrors every linear name scan in src/lib.rs. -/
def findField : List (String × ValueType) → String → Option (Nat × ValueType)
  | [], _ => none
  | (fname, ftype) :: rest, name =>
    if fname = name then some (0, ftype)
    else (findField rest name).map (fun p => (p.1 + 1, p.2))

/-- The scan-and-replace loop of `Schema::set_field` (src/lib.rs lines
75-82); `pos` is the running index, the out-of-range `unwrap` on
`get_mut` is the `panicked` branch. -/
def setLoop : List (String × ValueType) → Nat → DataEntry → String → List Nat →
    Res Unit × DataEntry
  | [], _, entry, name, _ => (.err (.NoSuchField name), entry)
  | (fname, _) :: rest, pos, entry, name, bytes =>
    if fname = name then
      if pos < entry.fields.length then (.ok (), ⟨entry.fields.set pos bytes⟩)
      else (.panicked, entry)
    else setLoop rest (pos + 1) entry name bytes

/-- `Schema::set_field` (src/lib.rs lines 66-83). The Rust function mutates
`entry` through `&mut`; the model returns the call result together with the
final state of the entry. -/
def Schema.set_field (self : Schema) (entry : DataEntry) (name : String) (value : Value) :
    Res Unit × DataEntry :=
  if entry.fields.length ≠ self.fields.length then (.err .EncodingError, entry)
  else setLoop self.fields 0 entry name value.serialize_inner

/-- The scan-and-decode loop of `Schema::get_field` (src/lib.rs lines
90-104); the out-of-range `unwrap` on `get` is the `panicked` branch. -/
def getLoop : List (String × ValueType) → Nat → DataEntry → String → Res Value
  | [], _, _, name => .err (.NoSuchField name)
  | (fname, ftype) :: rest, pos, entry, name =>
    if fname = name then
      match entry.fields[pos]? with
      | none => .panicked
      | some bytes =>
        match Value.from_bytes bytes ftype with
        | some v => .ok v
        | none => .err .EncodingError
    else getLoop rest (pos + 1) entry name

/-- `Schema::get_field` (src/lib.rs lines 85-105). -/
def Schema.get_field (self : Schema) (entry : DataEntry) (name : String) : Res Value :=
  if entry.fields.length ≠ self.fields.length then .err .EncodingError
  else getLoop self.fields 0 entry name

/-- The decode loop shared by `Schema::get_fields` (src/lib.rs lines
114-126) and `Schema::get_fields_as_tuple` (src/lib.rs lines 182-194):
walk the blobs positionally, pairing each with the schema field at the same
index; the `unwrap` on `self.fields.get(pos)` is the `panicked` branch, the
first decode failure aborts with `EncodingError`. The `HashMap` built by
`get_fields` is modelled by its insertion sequence. -/
def decodeAll : List (List Nat) → List (String × ValueType) → Res (List (String × Value))
  | [], _ => .ok []
  | _ :: _, [] => .panicked
  | bytes :: brest, (name, ftype) :: frest =>
    match Value.from_bytes bytes ftype with
    | none => .err .EncodingError
    | some v =>
      match decodeAll brest frest with
      | .ok l => .ok ((name, v) :: l)
      | .err e => .err e
      | .panicked => .panicked

/-- `Schema::get_fields` (src/lib.rs lines 107-129). -/
def Schema.get_fields (self : Schema) (entry : DataEntry) : Res (List (String × Value)) :=
  if entry.fields.length ≠ self.fields.length then .err .EncodingError
  else decodeAll entry.fields self.fields

/-- `Schema::get_fields_as_tuple` (src/lib.rs lines 175-197); same loop as
`get_fields`, collecting into a vector. -/
def Schema.get_fields_as_tuple (self : Schema) (entry : DataEntry) :
    Res (List (String × Value)) :=
  if entry.fields.length ≠ self.fields.length then .err .EncodingError
  else decodeAll entry.fields self.fields

/-- The inner `while` lookup of `Schema::get_fields_with_filter`
(src/lib.rs lines 142-157): scan the schema for the name; running past the
end (`self.fields.get(fpos).unwrap()`) panics, modelled by `none`. -/
def filterLookup : List (String × ValueType) → String → Option ValueType
  | [], _ => none
  | (n, t) :: rest, name => if n = name then some t else filterLookup rest name

/-- The body loop of `Schema::get_fields_with_filter` (src/lib.rs lines
139-168): pair the blobs of the entry positionally with the names of the
filter; a missing filter name (`expect`) and a name absent from the schema
both panic. -/
def gfwfLoop : List (List Nat) → List String → List (String × ValueType) →
    Res (List (String × Value))
  | [], _, _ => .ok []
  | _ :: _, [], _ => .panicked
  | bytes :: brest, name :: nrest, flds =>
    match filterLookup flds name with
    | none => .panicked
    | some ftype =>
      match Value.from_bytes bytes ftype with
      | none => .err .EncodingError
      | some v =>
        match gfwfLoop brest nrest flds with
        | .ok l => .ok ((name, v) :: l)
        | .err e => .err e
        | .panicked => .panicked

/-- `Schema::get_fields_with_filter` (src/lib.rs lines 131-171). Note the
guard compares the entry length with the FILTER length, not with the
schema field count. -/
def Schema.get_fields_with_filter (self : Schema) (entry : DataEntry)
    (filter : List String) : Res (List (String × Value)) :=
  if entry.fields.length ≠ filter.length then .err .EncodingError
  else gfwfLoop entry.fields filter self.fields

/-- `SchemaBuilder` (src/lib.rs lines 204-207, src/builders.rs lines 7-10). -/
structure SchemaBuilder where
  key : ValueType
  fields : List (String × ValueType)
deriving DecidableEq, Repr

/-- `SchemaBuilder::new` (src/lib.rs lines 210-212). -/
def SchemaBuilder.new (key : ValueType) : SchemaBuilder := ⟨key, []⟩

/-- The duplicate scan of `SchemaBuilder::add_field` (src/lib.rs lines
219-223, src/builders.rs lines 32-36). -/
def dupLoop : List (String × ValueType) → String → Bool
  | [], _ => false
  | (fname, _) :: rest, name => if name = fname then true else dupLoop rest name

/-- `SchemaBuilder::add_field` (src/lib.rs lines 218-228, src/builders.rs
lines 28-41): panics on a duplicate name, otherwise appends the pair. -/
def SchemaBuilder.add_field (self : SchemaBuilder) (name : String) (vtype : ValueType) :
    Res SchemaBuilder :=
  if dupLoop self.fields name then .panicked
  else .ok ⟨self.key, self.fields ++ [(name, vtype)]⟩

/-- `SchemaBuilder::build` (src/lib.rs lines 214-216). -/
def SchemaBuilder.build (self : SchemaBuilder) : Schema := ⟨self.key, self.fields⟩

/-- `EntryBuilder` (src/lib.rs lines 231-234, src/builders.rs lines 44-47):
a name-to-blob map (the `HashMap`, modelled as a function) plus the schema
field list. -/
structure EntryBuilder where
  fields : String → Option (List Nat)
  schema : List (String × ValueType)

/-- `Schema::build_entry` (src/lib.rs lines 199-201). -/
def Schema.build_entry (self : Schema) : EntryBuilder := ⟨fun _ => none, self.fields⟩

/-- The map insertion performed by both `EntryBuilder::set_field` (which
records `bincode::serialize(value)` for an arbitrary serializable value)
and `EntryBuilder::set_field_from_value`: record `bytes` under `name`,
overwriting any previous blob (src/lib.rs lines 237-253, src/builders.rs
lines 57-75). -/
def EntryBuilder.set_field_bytes (self : EntryBuilder) (name : String) (bytes : List Nat) :
    EntryBuilder :=
  ⟨fun n => if n = name then some bytes else self.fields n, self.schema⟩

/-- `EntryBuilder::set_field_from_value` (src/lib.rs lines 246-253,
src/builders.rs lines 67-75). -/
def EntryBuilder.set_field_from_value (self : EntryBuilder) (name : String) (value : Value) :
    EntryBuilder :=
  self.set_field_bytes name value.serialize_inner

/-- Run a sequence of recorded insertions (each `set_field` or
`set_field_from_value` call carrying the bytes it stores) on a builder. -/
def applyOps (b : EntryBuilder) (ops : List (String × List Nat)) : EntryBuilder :=
  ops.foldl (fun acc p => acc.set_field_bytes p.1 p.2) b

/-- `HashMap::remove` on the modelled map. -/
def removeField (m : String → Option (List Nat)) (name : String) :
    String → Option (List Nat) :=
  fun n => if n = name then none else m n

/-- The consume loop of `EntryBuilder::build` (src/builders.rs lines 79-87;
`done` in src/lib.rs lines 255-264): for each schema field in order,
remove its blob from the map; a missing blob (`expect("Field is missing")`)
panics, modelled by `none`. -/
def buildLoop : List (String × ValueType) → (String → Option (List Nat)) →
    Option (List (List Nat))
  | [], _ => some []
  | (fname, _) :: rest, m =>
    match m fname with
    | none => none
    | some bytes => (buildLoop rest (removeField m fname)).map (fun l => bytes :: l)

/-- `EntryBuilder::build` (src/builders.rs lines 77-91). -/
def EntryBuilder.build (self : EntryBuilder) : Option DataEntry :=
  (buildLoop self.schema self.fields).map DataEntry.mk

/-- The last blob recorded under a name by a sequence of insertions (the
specification-level reading of last-write-wins). -/
def lastWrite : List (String × List Nat) → String → Option (List Nat)
  | [], _ => none
  | (m, bytes) :: rest, n =>
    match lastWrite rest n with
    | some x => some x
    | none => if n = m then some bytes else none

/-- The entry is structurally complete for the schema and every blob
decodes against its declared field type. -/
def entryDecodes (s : Schema) (e : DataEntry) : Bool :=
  e.fields.length == s.fields.length &&
    (e.fields.zip s.fields).all (fun p => (Value.from_bytes p.1 p.2.2).isSome)

/-!
Extension for the build with the `json` cargo feature enabled, needed by
the claim about `Value::from_bytes` covering the `Json` declared type
(src/value.rs lines 234-238). The payload type `serde_json::Value` and its
parser live in an external crate; they are modelled from the spec: a
recursive document (null, boolean, number, string, array, mapping) decoded
from the standard textual JSON form. Numbers are kept as their parsed
components (sign, integer part, fraction digits, exponent), preserving the
signed versus unsigned distinction.
-/

/-- Modelled from the spec: the structured document payload
(`serde_json::Value`), a recursive document type. -/
inductive Json where
  | null : Json
  | bool : Bool → Json
  | num : Bool → Nat → List Nat → Int → Json
  | str : List Nat → Json
  | arr : List Json → Json
  | obj : List (List Nat × Json) → Json

/-- JSON whitespace skipping. -/
def skipWs : List Nat → List Nat
  | b :: rest =>
    if b == 0x20 || b == 0x09 || b == 0x0A || b == 0x0D then skipWs rest else b :: rest
  | [] => []

/-- ASCII decimal digit. -/
def isDigit (b : Nat) : Bool := decide (0x30 ≤ b) && decide (b ≤ 0x39)

/-- Greedy run of decimal digits from the front of the input. -/
def digitRun : List Nat → List Nat × List Nat
  | [] => ([], [])
  | b :: rest =>
    if isDigit b then
      match digitRun rest with
      | (ds, r) => (b :: ds, r)
    else ([], b :: rest)

/-- Decimal value of a digit-byte run. -/
def digitsToNat (acc : Nat) : List Nat → Nat
  | [] => acc
  | d :: rest => digitsToNat (acc * 10 + (d - 0x30)) rest

/-- ASCII hexadecimal digit value. -/
def parseHex (b : Nat) : Option Nat :=
  if isDigit b then some (b - 0x30)
  else if 0x41 ≤ b && b ≤ 0x46 then some (b - 0x41 + 10)
  else if 0x61 ≤ b && b ≤ 0x66 then some (b - 0x61 + 10)
  else none

/-- Modelled from the spec: JSON string body (the opening quote already
consumed), resolving the standard escapes; returns the decoded units and
the input after the closing quote. -/
def parseJString : List Nat → Option (List Nat × List Nat)
  | [] => none
  | b :: rest =>
    if b == 0x22 then some ([], rest)
    else if b == 0x5C then
      match rest with
      | [] => none
      | e :: rest2 =>
        if e == 0x22 || e == 0x5C || e == 0x2F then
          (parseJString rest2).map (fun p => (e :: p.1, p.2))
        else if e == 0x62 then (parseJString rest2).map (fun p => (8 :: p.1, p.2))
        else if e == 0x66 then (parseJString rest2).map (fun p => (12 :: p.1, p.2))
        else if e == 0x6E then (parseJString rest2).map (fun p => (10 :: p.1, p.2))
        else if e == 0x72 then (parseJString rest2).map (fun p => (13 :: p.1, p.2))
        else if e == 0x74 then (parseJString rest2).map (fun p => (9 :: p.1, p.2))
        else if e == 0x75 then
          match rest2 with
          | h1 :: h2 :: h3 :: h4 :: rest3 =>
            match parseHex h1, parseHex h2, parseHex h3, parseHex h4 with
            | some a, some b2, some c, some d =>
              (parseJString rest3).map (fun p => ((((a * 16 + b2) * 16 + c) * 16 + d) :: p.1, p.2))
            | _, _, _, _ => none
          | _ => none
        else none
    else if b < 0x20 then none
    else (parseJString rest).map (fun p => (b :: p.1, p.2))
termination_by l => l.length

/-- Fraction part of a JSON number (empty when there is no decimal point;
a decimal point must be followed by at least one digit). -/
def parseFrac : List Nat → Option (List Nat × List Nat)
  | 0x2E :: rr =>
    match digitRun rr with
    | ([], _) => none
    | (ds, r) => some (ds.map (fun d => d - 0x30), r)
  | data => some ([], data)

/-- Exponent part of a JSON number (zero when absent). -/
def parseExp : List Nat → Option (Int × List Nat)
  | [] => some (0, [])
  | b :: rest =>
    if b == 0x65 || b == 0x45 then
      match rest with
      | 0x2D :: r1 =>
        match digitRun r1 with
        | ([], _) => none
        | (ds, r) => some (-(digitsToNat 0 ds : Int), r)
      | 0x2B :: r1 =>
        match digitRun r1 with
        | ([], _) => none
        | (ds, r) => some ((digitsToNat 0 ds : Int), r)
      | r1 =>
        match digitRun r1 with
        | ([], _) => none
        | (ds, r) => some ((digitsToNat 0 ds : Int), r)
    else some (0, b :: rest)

/-- Unsigned body of a JSON number: integer part, fraction, exponent. -/
def parseNumBody (r1 : List Nat) : Option ((Nat × List Nat × Int) × List Nat) :=
  match digitRun r1 with
  | ([], _) => none
  | (ids, r2) =>
    match parseFrac r2 with
    | none => none
    | some (frac, r3) =>
      match parseExp r3 with
      | none => none
      | some (ex, r4) => some ((digitsToNat 0 ids, frac, ex), r4)

/-- Modelled from the spec: a JSON number with optional leading minus. -/
def parseNumber (data : List Nat) : Option (Json × List Nat) :=
  match data with
  | 0x2D :: r1 => (parseNumBody r1).map (fun p => (Json.num true p.1.1 p.1.2.1 p.1.2.2, p.2))
  | _ => (parseNumBody data).map (fun p => (Json.num false p.1.1 p.1.2.1 p.1.2.2, p.2))

mutual

/-- Modelled from the spec: recursive-descent JSON value parser; the fuel
argument bounds the nesting depth. -/
def parseValue : Nat → List Nat → Option (Json × List Nat)
  | 0, _ => none
  | fuel + 1, data =>
    match skipWs data with
    | [] => none
    | b :: rest =>
      if b == 0x6E then
        match rest with
        | 0x75 :: 0x6C :: 0x6C :: r => some (.null, r)
        | _ => none
      else if b == 0x74 then
        match rest with
        | 0x72 :: 0x75 :: 0x65 :: r => some (.bool true, r)
        | _ => none
      else if b == 0x66 then
        match rest with
        | 0x61 :: 0x6C :: 0x73 :: 0x65 :: r => some (.bool false, r)
        | _ => none
      else if b == 0x22 then
        (parseJString rest).map (fun p => (Json.str p.1, p.2))
      else if b == 0x2D || isDigit b then
        parseNumber (b :: rest)
      else if b == 0x5B then
        match skipWs rest with
        | 0x5D :: r => some (.arr [], r)
        | r2 => (parseArrayItems fuel r2).map (fun p => (Json.arr p.1, p.2))
      else if b == 0x7B then
        match skipWs rest with
        | 0x7D :: r => some (.obj [], r)
        | r2 => (parseObjectItems fuel r2).map (fun p => (Json.obj p.1, p.2))
      else none

/-- Comma-separated JSON array elements up to the closing bracket. -/
def parseArrayItems : Nat → List Nat → Option (List Json × List Nat)
  | 0, _ => none
  | fuel + 1, data =>
    match parseValue fuel data with
    | none => none
    | some (v, r) =>
      match skipWs r with
      | 0x2C :: r2 => (parseArrayItems fuel r2).map (fun p => (v :: p.1, p.2))
      | 0x5D :: r2 => some ([v], r2)
      | _ => none

/-- Comma-separated JSON object members up to the closing brace. -/
def parseObjectItems : Nat → List Nat → Option (List (List Nat × Json) × List Nat)
  | 0, _ => none
  | fuel + 1, data =>
    match skipWs data with
    | 0x22 :: r =>
      match parseJString r with
      | none => none
      | some (key, r2) =>
        match skipWs r2 with
        | 0x3A :: r3 =>
          match parseValue fuel r3 with
          | none => none
          | some (v, r4) =>
            match skipWs r4 with
            | 0x2C :: r5 => (parseObjectItems fuel r5).map (fun p => ((key, v) :: p.1, p.2))
            | 0x7D :: r5 => some ([(key, v)], r5)
            | _ => none
        | _ => none
    | _ => none

end

/-- Modelled from the spec: `serde_json::from_slice` — parse one JSON value
from the whole input, tolerating only trailing whitespace. -/
def jsonFromSlice (data : List Nat) : Option Json :=
  match parseValue (data.length + 1) data with
  | none => none
  | some (v, rest) => match skipWs rest with
    | [] => some v
    | _ => none

/-- Type tags with the `json` feature enabled (src/value.rs lines 29-38). -/
inductive ValueTypeJ where
  | String : ValueTypeJ
  | F64 : ValueTypeJ
  | I64 : ValueTypeJ
  | U64 : ValueTypeJ
  | Bool : ValueTypeJ
  | Json : ValueTypeJ
deriving DecidableEq, Repr

/-- Tagged values with the `json` feature enabled (src/value.rs lines
18-27). -/
inductive ValueJ where
  | String : List Nat → ValueJ
  | F64 : Nat → ValueJ
  | I64 : Nat → ValueJ
  | U64 : Nat → ValueJ
  | Bool : Bool → ValueJ
  | Json : Json → ValueJ

/-- The tag of a `ValueJ` variant. -/
def ValueJ.tag : ValueJ → ValueTypeJ
  | .String _ => .String
  | .F64 _ => .F64
  | .I64 _ => .I64
  | .U64 _ => .U64
  | .Bool _ => .Bool
  | .Json _ => .Json

/-- Inclusion of the primitive variants into the json-enabled value type. -/
def valueToJ : Value → ValueJ
  | .String s => .String s
  | .F64 b => .F64 b
  | .I64 b => .I64 b
  | .U64 n => .U64 n
  | .Bool b => .Bool b

/-- Outcome of a decode call that can succeed, report a decode error, or
panic. -/
inductive DecodeOutcome where
  | ok : ValueJ → DecodeOutcome
  | err : DecodeOutcome
  | panicked : DecodeOutcome

/-- `Value::from_bytes` with the `json` feature enabled (src/value.rs lines
212-242): the five primitive arms propagate the bincode decode error with
the question-mark operator; the `Json` arm calls
`serde_json::from_slice(data).unwrap()`, which PANICS on a parse failure. -/
def from_bytesJ (data : List Nat) (value_type : ValueTypeJ) : DecodeOutcome :=
  match value_type with
  | .String =>
    match Value.from_bytes data ValueType.String with
    | some v => .ok (valueToJ v)
    | none => .err
  | .F64 =>
    match Value.from_bytes data ValueType.F64 with
    | some v => .ok (valueToJ v)
    | none => .err
  | .I64 =>
    match Value.from_bytes data ValueType.I64 with
    | some v => .ok (valueToJ v)
    | none => .err
  | .U64 =>
    match Value.from_bytes data ValueType.U64 with
    | some v => .ok (valueToJ v)
    | none => .err
  | .Bool =>
    match Value.from_bytes data ValueType.Bool with
    | some v => .ok (valueToJ v)
    | none => .err
  | .Json =>
    match jsonFromSlice data with
    | some v => .ok (.Json v)
    | none => .panicked

/-- What the claim about `from_bytes` asserts of one outcome: success
carries the declared tag, failure is a recoverable decode error. The
`panicked` case records the declared type at which the code instead dies
(only ever the `Json` arm). -/
def decodeOutcomeTagOk : DecodeOutcome → ValueTypeJ → Prop
  | .ok v, t => ValueJ.tag v = t
  | .err, _ => True
  | .panicked, t => t = ValueTypeJ.Json

/-! Helper lemmas about the byte codec. -/

theorem toLE_length (k n : Nat) : (toLE k n).length = k := by
  induction k generalizing n with
  | zero => rfl
  | succ k ih => simp [toLE, ih]

theorem fromLE_toLE (k n : Nat) : fromLE (toLE k n) = n % 256 ^ k := by
  induction k generalizing n with
  | zero => simp [toLE, fromLE, Nat.mod_one]
  | succ k ih =>
    have hdvd : (256 : Nat) ∣ 256 ^ (k + 1) := dvd_pow_self 256 (Nat.succ_ne_zero k)
    have h1 : n % 256 ^ (k + 1) % 256 = n % 256 := Nat.mod_mod_of_dvd n hdvd
    have h2 : n % 256 ^ (k + 1) / 256 = n / 256 % 256 ^ k := by
      rw [pow_succ']
      exact Nat.mod_mul_right_div_self n 256 (256 ^ k)
    have h3 : 256 * (n % 256 ^ (k + 1) / 256) + n % 256 ^ (k + 1) % 256 = n % 256 ^ (k + 1) :=
      Nat.div_add_mod _ 256
    have h4 : fromLE (toLE (k + 1) n) = n % 256 + 256 * fromLE (toLE k (n / 256)) := rfl
    rw [h4, ih]
    omega

theorem fromLE_toLE_eight (n : Nat) (h : n < 2 ^ 64) : fromLE (toLE 8 n) = n := by
  rw [fromLE_toLE]
  have : (256 : Nat) ^ 8 = 2 ^ 64 := by norm_num
  rw [this]
  exact Nat.mod_eq_of_lt h

theorem readN_append (l r : List Nat) : readN l.length (l ++ r) = some (l, r) := by
  simp [readN]

theorem readN_toLE_eight (n : Nat) (r : List Nat) :
    readN 8 (toLE 8 n ++ r) = some (toLE 8 n, r) := by
  have h := readN_append (toLE 8 n) r
  rwa [toLE_length] at h

/-- Round trip of the value codec: the bincode decoding of
`serialize_inner` at the declared tag of the value returns the value
itself, bit for bit. -/
theorem from_bytes_serialize_inner (v : Value) (h : valueWf v = true) :
    Value.from_bytes v.serialize_inner v.tag = some v := by
  cases v with
  | String s =>
    simp only [valueWf, Bool.and_eq_true, decide_eq_true_eq] at h
    obtain ⟨h1, h2⟩ := h
    show Value.from_bytes (toLE 8 s.length ++ s) ValueType.String = some (Value.String s)
    simp only [Value.from_bytes, readN_toLE_eight, fromLE_toLE_eight s.length h2]
    have hr : readN s.length (s ++ []) = some (s, []) := readN_append s []
    rw [List.append_nil] at hr
    simp [hr, h1]
  | F64 bits =>
    simp only [valueWf, decide_eq_true_eq] at h
    show Value.from_bytes (toLE 8 bits) ValueType.F64 = some (Value.F64 bits)
    have hr := readN_toLE_eight bits []
    rw [List.append_nil] at hr
    simp [Value.from_bytes, hr, fromLE_toLE_eight bits h]
  | I64 bits =>
    simp only [valueWf, decide_eq_true_eq] at h
    show Value.from_bytes (toLE 8 bits) ValueType.I64 = some (Value.I64 bits)
    have hr := readN_toLE_eight bits []
    rw [List.append_nil] at hr
    simp [Value.from_bytes, hr, fromLE_toLE_eight bits h]
  | U64 n =>
    simp only [valueWf, decide_eq_true_eq] at h
    show Value.from_bytes (toLE 8 n) ValueType.U64 = some (Value.U64 n)
    have hr := readN_toLE_eight n []
    rw [List.append_nil] at hr
    simp [Value.from_bytes, hr, fromLE_toLE_eight n h]
  | Bool b =>
    cases b <;> simp [Value.from_bytes, Value.serialize_inner, Value.tag]

/-- A successful decode carries the declared tag. -/
theorem from_bytes_tag (data : List Nat) (t : ValueType) (v : Value)
    (h : Value.from_bytes data t = some v) : v.tag = t := by
  cases t <;> simp only [Value.from_bytes] at h <;> repeat' split at h
  all_goals (first | (cases h; rfl) | simp_all)

/-! Helper lemmas about the name-scan loops. -/

theorem findField_isNone (flds : List (String × ValueType)) (name : String) :
    findField flds name = none ↔ name ∉ flds.map Prod.fst := by
  induction flds with
  | nil => simp [findField]
  | cons hd tl ih =>
    obtain ⟨fname, ftype⟩ := hd
    by_cases h : fname = name
    · simp [findField, h]
    · simp only [findField, if_neg h, Option.map_eq_none', ih, List.map_cons,
        List.mem_cons]
      constructor
      · intro hn hc
        rcases hc with hc | hc
        · exact h hc.symm
        · exact hn hc
      · intro hn hc
        exact hn (Or.inr hc)

theorem findField_lt_length (flds : List (String × ValueType)) (name : String)
    (pos : Nat) (t : ValueType) (h : findField flds name = some (pos, t)) :
    pos < flds.length := by
  induction flds generalizing pos with
  | nil => simp [findField] at h
  | cons hd tl ih =>
    obtain ⟨fname, ftype⟩ := hd
    by_cases he : fname = name
    · simp only [findField, if_pos he, Option.some_inj] at h
      have hp : 0 = pos := congrArg Prod.fst h
      simp only [List.length_cons]
      omega
    · simp only [findField, if_neg he] at h
      cases hf : findField tl name with
      | none => rw [hf] at h; simp at h
      | some p =>
        rw [hf] at h
        simp only [Option.map_some', Option.some_inj] at h
        have hp2 : p.2 = t := congrArg Prod.snd h
        have := ih p.1 (by rw [hf, ← hp2])
        have hp : p.1 + 1 = pos := congrArg Prod.fst h
        simp only [List.length_cons]
        omega

theorem setLoop_of_none (flds : List (String × ValueType)) (pos : Nat)
    (entry : DataEntry) (name : String) (bytes : List Nat)
    (h : findField flds name = none) :
    setLoop flds pos entry name bytes = (.err (.NoSuchField name), entry) := by
  induction flds generalizing pos with
  | nil => rfl
  | cons hd tl ih =>
    obtain ⟨fname, ftype⟩ := hd
    by_cases he : fname = name
    · simp [findField, he] at h
    · simp only [findField, if_neg he, Option.map_eq_none'] at h
      simp only [setLoop, if_neg he]
      exact ih (pos + 1) h

theorem setLoop_of_found (flds : List (String × ValueType)) (pos : Nat)
    (entry : DataEntry) (name : String) (bytes : List Nat) (i : Nat) (t : ValueType)
    (h : findField flds name = some (i, t)) :
    setLoop flds pos entry name bytes =
      if pos + i < entry.fields.length then (Res.ok (), ⟨entry.fields.set (pos + i) bytes⟩)
      else (Res.panicked, entry) := by
  induction flds generalizing pos i t with
  | nil => simp [findField] at h
  | cons hd tl ih =>
    obtain ⟨fname, ftype⟩ := hd
    by_cases he : fname = name
    · simp only [findField, if_pos he, Option.some_inj] at h
      have hi : i = 0 := (congrArg Prod.fst h).symm
      subst hi
      simp [setLoop, he]
    · simp only [findField, if_neg he] at h
      cases hf : findField tl name with
      | none => rw [hf] at h; simp at h
      | some p =>
        rw [hf] at h
        simp only [Option.map_some', Option.some_inj] at h
        have hp1 : p.1 + 1 = i := congrArg Prod.fst h
        simp only [setLoop, if_neg he]
        rw [ih (pos + 1) p.1 p.2 (by rw [hf])]
        have harith : pos + 1 + p.1 = pos + i := by omega
        rw [harith]

theorem getLoop_of_none (flds : List (String × ValueType)) (pos : Nat)
    (entry : DataEntry) (name : String)
    (h : findField flds name = none) :
    getLoop flds pos entry name = .err (.NoSuchField name) := by
  induction flds generalizing pos with
  | nil => rfl
  | cons hd tl ih =>
    obtain ⟨fname, ftype⟩ := hd
    by_cases he : fname = name
    · simp [findField, he] at h
    · simp only [findField, if_neg he, Option.map_eq_none'] at h
      simp only [getLoop, if_neg he]
      exact ih (pos + 1) h

theorem getLoop_of_found (flds : List (String × ValueType)) (pos : Nat)
    (entry : DataEntry) (name : String) (i : Nat) (t : ValueType)
    (h : findField flds name = some (i, t)) :
    getLoop flds pos entry name =
      match entry.fields[pos + i]? with
      | none => Res.panicked
      | some bytes =>
        match Value.from_bytes bytes t with
        | some v => .ok v
        | none => .err .EncodingError := by
  induction flds generalizing pos i t with
  | nil => simp [findField] at h
  | cons hd tl ih =>
    obtain ⟨fname, ftype⟩ := hd
    by_cases he : fname = name
    · simp only [findField, if_pos he, Option.some_inj] at h
      have hi : i = 0 := (congrArg Prod.fst h).symm
      have ht : ftype = t := congrArg Prod.snd h
      subst hi
      subst ht
      simp [getLoop, he]
    · simp only [findField, if_neg he] at h
      cases hf : findField tl name with
      | none => rw [hf] at h; simp at h
      | some p =>
        rw [hf] at h
        simp only [Option.map_some', Option.some_inj] at h
        have hp1 : p.1 + 1 = i := congrArg Prod.fst h
        have hp2 : p.2 = t := congrArg Prod.snd h
        simp only [getLoop, if_neg he]
        rw [ih (pos + 1) p.1 p.2 (by rw [hf])]
        have harith : pos + 1 + p.1 = pos + i := by omega
        rw [harith, hp2]

/-! Helper lemmas about the positional decode loop. -/

theorem decodeAll_ok (bl : List (List Nat)) (fl : List (String × ValueType))
    (hlen : bl.length = fl.length)
    (hdec : ∀ p ∈ bl.zip fl, (Value.from_bytes p.1 p.2.2).isSome = true) :
    ∃ l, decodeAll bl fl = .ok l ∧ l.map Prod.fst = fl.map Prod.fst := by
  induction bl generalizing fl with
  | nil =>
    cases fl with
    | nil => exact ⟨[], rfl, rfl⟩
    | cons _ _ => simp at hlen
  | cons b bt ih =>
    cases fl with
    | nil => simp at hlen
    | cons f ft =>
      obtain ⟨name, ftype⟩ := f
      have hd := hdec (b, (name, ftype)) (by simp [List.zip_cons_cons])
      cases hv : Value.from_bytes b ftype with
      | none => rw [hv] at hd; simp at hd
      | some v =>
        obtain ⟨l, hl, hmap⟩ := ih ft (by simpa using hlen)
          (fun p hp => hdec p (by simp [List.zip_cons_cons, hp]))
        refine ⟨(name, v) :: l, ?_, by simp [hmap]⟩
        simp [decodeAll, hv, hl]

/-! Helper lemmas about the entry builder. -/

theorem applyOps_schema (ops : List (String × List Nat)) (b : EntryBuilder) :
    (applyOps b ops).schema = b.schema := by
  induction ops generalizing b with
  | nil => rfl
  | cons op rest ih => exact (ih _).trans rfl

theorem applyOps_fields (ops : List (String × List Nat)) (b : EntryBuilder) (n : String) :
    (applyOps b ops).fields n =
      match lastWrite ops n with
      | some x => some x
      | none => b.fields n := by
  induction ops generalizing b with
  | nil => rfl
  | cons op rest ih =>
    obtain ⟨m, bytes⟩ := op
    show (applyOps (b.set_field_bytes m bytes) rest).fields n = _
    rw [ih]
    simp only [lastWrite]
    cases lastWrite rest n with
    | some x => rfl
    | none => by_cases hnm : n = m <;> simp [EntryBuilder.set_field_bytes, hnm]

theorem lastWrite_isSome (ops : List (String × List Nat)) (n : String)
    (h : n ∈ ops.map Prod.fst) : (lastWrite ops n).isSome = true := by
  induction ops with
  | nil => simp at h
  | cons op rest ih =>
    obtain ⟨m, bytes⟩ := op
    simp only [lastWrite]
    cases hl : lastWrite rest n with
    | some x => rfl
    | none =>
      simp only [List.map_cons, List.mem_cons] at h
      rcases h with h | h
      · simp [h]
      · have hi := ih h
        rw [hl] at hi
        simp at hi

theorem lastWrite_filter (ops : List (String × List Nat)) (names : List String) (n : String)
    (hn : n ∈ names) :
    lastWrite (ops.filter (fun p => decide (p.1 ∈ names))) n = lastWrite ops n := by
  induction ops with
  | nil => rfl
  | cons op rest ih =>
    obtain ⟨m, bytes⟩ := op
    by_cases hm : m ∈ names
    · rw [List.filter_cons_of_pos (by simpa using hm)]
      simp only [lastWrite, ih]
    · rw [List.filter_cons_of_neg (by simpa using hm)]
      rw [ih]
      simp only [lastWrite]
      cases lastWrite rest n with
      | some x => rfl
      | none =>
        have hne : n ≠ m := fun he => hm (he ▸ hn)
        simp [hne]

theorem buildLoop_congr (flds : List (String × ValueType))
    (m m' : String → Option (List Nat))
    (h : ∀ p ∈ flds, m p.1 = m' p.1) :
    buildLoop flds m = buildLoop flds m' := by
  induction flds generalizing m m' with
  | nil => rfl
  | cons hd tl ih =>
    obtain ⟨fname, ftype⟩ := hd
    have hh := h (fname, ftype) (by simp)
    simp only [buildLoop, hh]
    cases m' fname with
    | none => rfl
    | some bytes =>
      have hrest : ∀ p ∈ tl, removeField m fname p.1 = removeField m' fname p.1 := by
        intro p hp
        simp only [removeField]
        by_cases hne : p.1 = fname
        · simp [hne]
        · simp only [if_neg hne]
          exact h p (by simp [hp])
      rw [ih (removeField m fname) (removeField m' fname) hrest]

theorem buildLoop_eq_map (flds : List (String × ValueType))
    (m : String → Option (List Nat))
    (hnd : (flds.map Prod.fst).Nodup)
    (hsome : ∀ p ∈ flds, (m p.1).isSome = true) :
    buildLoop flds m = some (flds.map (fun p => (m p.1).getD [])) := by
  induction flds generalizing m with
  | nil => rfl
  | cons hd tl ih =>
    obtain ⟨fname, ftype⟩ := hd
    have h0 := hsome (fname, ftype) (by simp)
    cases hm : m fname with
    | none => rw [hm] at h0; simp at h0
    | some bytes =>
      simp only [buildLoop, hm]
      have hnd2 : (tl.map Prod.fst).Nodup := by
        simp only [List.map_cons, List.nodup_cons] at hnd
        exact hnd.2
      have hcong : buildLoop tl (removeField m fname) = buildLoop tl m := by
        apply buildLoop_congr
        intro p hp
        have hne : p.1 ≠ fname := by
          intro he
          simp only [List.map_cons, List.nodup_cons] at hnd
          exact hnd.1 (he ▸ List.mem_map_of_mem Prod.fst hp)
        simp [removeField, hne]
      rw [hcong, ih m hnd2 (fun p hp => hsome p (by simp [hp]))]
      simp [hm]

/-! Shared concrete instances used by the witnesses below. -/

/-- A two-field schema (a U64 field and a Bool field) built as
`Schema::from_parts(Bool, [("a", U64), ("b", Bool)])`. -/
def wSchema : Schema :=
  Schema.from_parts ValueType.Bool [("a", ValueType.U64), ("b", ValueType.Bool)]

/-- A complete, well-encoded entry for `wSchema`: the U64 value 1 and the
boolean false. -/
def wEntry : DataEntry := ⟨[[1, 0, 0, 0, 0, 0, 0, 0], [0]]⟩

/-- A two-field all-Bool schema used by the counterexamples. -/
def cexSchema : Schema :=
  Schema.from_parts ValueType.Bool [("a", ValueType.Bool), ("b", ValueType.Bool)]

/-- A one-blob entry (too short for `cexSchema`). -/
def cexEntry : DataEntry := ⟨[[1]]⟩

/-- C1: for every schema `S`, complete well-encoded entry `e`, field name
`n` declared in `S` (at position `pos` with declared type `t`), and value
`v` whose tag equals `t`: `S.set_field(e, n, v)` returns Ok, after it
`S.get_field(e, n)` returns exactly `v`, and the blob at every position
other than `pos` is byte-for-byte unchanged. -/
theorem claim_c1 (s : Schema) (e : DataEntry) (n : String) (v : Value)
    (pos : Nat) (t : ValueType)
    (hdec : entryDecodes s e = true)
    (hfind : findField s.fields n = some (pos, t))
    (htag : v.tag = t) (hwf : valueWf v = true) :
    (Schema.set_field s e n v).1 = Res.ok () ∧
    Schema.get_field s (Schema.set_field s e n v).2 n = Res.ok v ∧
    ∀ i, i ≠ pos → (Schema.set_field s e n v).2.fields[i]? = e.fields[i]? := by
  have hlen : e.fields.length = s.fields.length := by
    simp only [entryDecodes, Bool.and_eq_true, beq_iff_eq] at hdec
    exact hdec.1
  have hpos : pos < s.fields.length := findField_lt_length s.fields n pos t hfind
  have hposE : pos < e.fields.length := by omega
  have hset : Schema.set_field s e n v =
      (Res.ok (), ⟨e.fields.set pos v.serialize_inner⟩) := by
    rw [Schema.set_field, if_neg (by omega)]
    rw [setLoop_of_found s.fields 0 e n v.serialize_inner pos t hfind]
    simp only [Nat.zero_add]
    rw [if_pos hposE]
  refine ⟨by rw [hset], ?_, ?_⟩
  · rw [hset]
    show Schema.get_field s ⟨e.fields.set pos v.serialize_inner⟩ n = Res.ok v
    rw [Schema.get_field]
    rw [if_neg (by simp only [List.length_set]; omega)]
    rw [getLoop_of_found s.fields 0 ⟨e.fields.set pos v.serialize_inner⟩ n pos t hfind]
    simp only [Nat.zero_add]
    have hget : (e.fields.set pos v.serialize_inner)[pos]? = some v.serialize_inner :=
      List.getElem?_set_eq_of_lt _ hposE
    rw [hget]
    have hfb : Value.from_bytes v.serialize_inner t = some v := by
      rw [← htag]
      exact from_bytes_serialize_inner v hwf
    simp [hfb]
  · intro i hi
    rw [hset]
    show (e.fields.set pos v.serialize_inner)[i]? = e.fields[i]?
    exact List.getElem?_set_ne (by omega)

/-- Witness for C1 at `wSchema`, `wEntry`, field "a", value `U64 42`. -/
theorem claim_c1_witness :
    (Schema.set_field wSchema wEntry "a" (Value.U64 42)).1 = Res.ok () ∧
    Schema.get_field wSchema (Schema.set_field wSchema wEntry "a" (Value.U64 42)).2 "a" =
      Res.ok (Value.U64 42) ∧
    ∀ i, i ≠ 0 →
      (Schema.set_field wSchema wEntry "a" (Value.U64 42)).2.fields[i]? =
        wEntry.fields[i]? :=
  claim_c1 wSchema wEntry "a" (Value.U64 42) 0 ValueType.U64
    (by decide) (by decide) (by decide) (by decide)

/-- The bit pattern of the canonical quiet f64 NaN (the value of
`f64::NAN`). -/
def nanBits : Nat := 0x7FF8000000000000

/-- C2, counterexample: the round trip at `F64(NaN)` succeeds and returns
the bit-identical value, but Rust `==` (the derived `PartialEq`, which
compares `F64` payloads with `f64::eq`) rejects it, because NaN is not
equal to itself; so `Value::from_bytes(v.serialize_inner(), t) == Ok(v)`
fails at `v = F64(NaN)`. -/
theorem claim_c2_counterexample :
    Value.from_bytes (Value.F64 nanBits).serialize_inner ValueType.F64 =
      some (Value.F64 nanBits) ∧
    rustValueEq (Value.F64 nanBits) (Value.F64 nanBits) = false := by
  constructor
  · exact from_bytes_serialize_inner (Value.F64 nanBits) (by decide)
  · decide

/-- C2, amended: for every value `v` with a primitive tag, decoding the
bytes of `serialize_inner(v)` against the tag of `v` succeeds and yields
the bit-identical value; the resulting value moreover compares equal to
`v` under Rust `==` whenever `v` is not an `F64` NaN. -/
theorem claim_c2 (v : Value) (hwf : valueWf v = true) :
    Value.from_bytes v.serialize_inner v.tag = some v ∧
    (valueIsNan v = false → rustValueEq v v = true) := by
  refine ⟨from_bytes_serialize_inner v hwf, ?_⟩
  intro hn
  cases v with
  | F64 bits =>
    simp only [valueIsNan] at hn
    simp only [rustValueEq, f64EqBits, hn, Bool.or_self, Bool.false_eq_true, if_false]
    split
    · rfl
    · simp
  | String s => simp [rustValueEq]
  | I64 bits => simp [rustValueEq]
  | U64 k => simp [rustValueEq]
  | Bool b => simp [rustValueEq]

/-- Witness for C2 (amended) at `v = U64 42`. -/
theorem claim_c2_witness :
    Value.from_bytes (Value.U64 42).serialize_inner (Value.U64 42).tag =
      some (Value.U64 42) ∧
    (valueIsNan (Value.U64 42) = false → rustValueEq (Value.U64 42) (Value.U64 42) = true) :=
  claim_c2 (Value.U64 42) (by decide)

/-- Helper: the tag embedding of the primitive tags into the json-enabled
tag type. -/
def tagToJ : ValueType → ValueTypeJ
  | .String => .String
  | .F64 => .F64
  | .I64 => .I64
  | .U64 => .U64
  | .Bool => .Bool

theorem valueToJ_tag (v : Value) : (valueToJ v).tag = tagToJ v.tag := by
  cases v <;> rfl

/-- C3: on the json-enabled build, `Value::from_bytes` never panics for
the five primitive declared types and a successful decode always carries
the declared tag; but at declared type `Json` with bytes that are not
valid JSON (for example the single byte 0xFF), the code PANICS — the
`serde_json::from_slice(data).unwrap()` in the `Json` arm — instead of
returning the decode error the claim (and the spec) require. -/
theorem claim_c3_code_bug :
    from_bytesJ [0xFF] ValueTypeJ.Json = DecodeOutcome.panicked ∧
    ∀ (data : List Nat) (t : ValueTypeJ), decodeOutcomeTagOk (from_bytesJ data t) t := by
  constructor
  · simp [from_bytesJ, jsonFromSlice, parseValue, skipWs, isDigit]
  · intro data t
    cases t with
    | Json =>
      simp only [from_bytesJ]
      cases jsonFromSlice data with
      | none => exact rfl
      | some v => exact rfl
    | String =>
      simp only [from_bytesJ]
      cases hv : Value.from_bytes data ValueType.String with
      | none => exact trivial
      | some v =>
        show (valueToJ v).tag = ValueTypeJ.String
        rw [valueToJ_tag, from_bytes_tag data ValueType.String v hv]
        rfl
    | F64 =>
      simp only [from_bytesJ]
      cases hv : Value.from_bytes data ValueType.F64 with
      | none => exact trivial
      | some v =>
        show (valueToJ v).tag = ValueTypeJ.F64
        rw [valueToJ_tag, from_bytes_tag data ValueType.F64 v hv]
        rfl
    | I64 =>
      simp only [from_bytesJ]
      cases hv : Value.from_bytes data ValueType.I64 with
      | none => exact trivial
      | some v =>
        show (valueToJ v).tag = ValueTypeJ.I64
        rw [valueToJ_tag, from_bytes_tag data ValueType.I64 v hv]
        rfl
    | U64 =>
      simp only [from_bytesJ]
      cases hv : Value.from_bytes data ValueType.U64 with
      | none => exact trivial
      | some v =>
        show (valueToJ v).tag = ValueTypeJ.U64
        rw [valueToJ_tag, from_bytes_tag data ValueType.U64 v hv]
        rfl
    | Bool =>
      simp only [from_bytesJ]
      cases hv : Value.from_bytes data ValueType.Bool with
      | none => exact trivial
      | some v =>
        show (valueToJ v).tag = ValueTypeJ.Bool
        rw [valueToJ_tag, from_bytes_tag data ValueType.Bool v hv]
        rfl

/-- C4, counterexample: `get_fields_with_filter` compares the entry length
with the FILTER length, not with the schema field count; with the
two-field schema, a one-blob entry and the one-name filter ["a"] it
returns Ok instead of the EncodingError the claim demands. -/
theorem claim_c4_counterexample :
    cexEntry.fields.length ≠ cexSchema.fields.length ∧
    Schema.get_fields_with_filter cexSchema cexEntry ["a"] =
      Res.ok [("a", Value.Bool true)] := by
  constructor
  · decide
  · decide

/-- C4, amended: for every entry whose blob count differs from the schema
field count, `set_field`, `get_field`, `get_fields` and
`get_fields_as_tuple` return `EncodingError`; `get_fields_with_filter`
instead checks the entry length against the filter length and returns
`EncodingError` exactly under that mismatch. -/
theorem claim_c4_amended (s : Schema) (e : DataEntry) (n : String) (v : Value)
    (filter : List String)
    (hlen : e.fields.length ≠ s.fields.length) :
    (Schema.set_field s e n v).1 = Res.err SchemaError.EncodingError ∧
    Schema.get_field s e n = Res.err SchemaError.EncodingError ∧
    Schema.get_fields s e = Res.err SchemaError.EncodingError ∧
    Schema.get_fields_as_tuple s e = Res.err SchemaError.EncodingError ∧
    (e.fields.length ≠ filter.length →
      Schema.get_fields_with_filter s e filter = Res.err SchemaError.EncodingError) := by
  refine ⟨?_, ?_, ?_, ?_, ?_⟩
  · rw [Schema.set_field, if_pos hlen]
  · rw [Schema.get_field, if_pos hlen]
  · rw [Schema.get_fields, if_pos hlen]
  · rw [Schema.get_fields_as_tuple, if_pos hlen]
  · intro hf
    rw [Schema.get_fields_with_filter, if_pos hf]

/-- Witness for C4 (amended) at the concrete mismatched entry. -/
theorem claim_c4_witness :
    (Schema.set_field cexSchema cexEntry "a" (Value.Bool true)).1 =
      Res.err SchemaError.EncodingError ∧
    Schema.get_field cexSchema cexEntry "a" = Res.err SchemaError.EncodingError ∧
    Schema.get_fields cexSchema cexEntry = Res.err SchemaError.EncodingError ∧
    Schema.get_fields_as_tuple cexSchema cexEntry = Res.err SchemaError.EncodingError ∧
    (cexEntry.fields.length ≠ ["a", "b"].length →
      Schema.get_fields_with_filter cexSchema cexEntry ["a", "b"] =
        Res.err SchemaError.EncodingError) :=
  claim_c4_amended cexSchema cexEntry "a" (Value.Bool true) ["a", "b"] (by decide)

/-- C5: for every schema `S` and complete well-encoded entry `e`,
`get_fields(e)` succeeds with key set exactly the field names of `S`, and
`get_fields_as_tuple(e)` succeeds with a sequence of the same length as
the schema whose names agree with the schema positionally. -/
theorem claim_c5 (s : Schema) (e : DataEntry) (hdec : entryDecodes s e = true) :
    ∃ l, Schema.get_fields s e = Res.ok l ∧
      Schema.get_fields_as_tuple s e = Res.ok l ∧
      (∀ nm, nm ∈ l.map Prod.fst ↔ nm ∈ s.fields.map Prod.fst) ∧
      l.length = s.fields.length ∧
      l.map Prod.fst = s.fields.map Prod.fst := by
  simp only [entryDecodes, Bool.and_eq_true, beq_iff_eq, List.all_eq_true] at hdec
  obtain ⟨hlen, hall⟩ := hdec
  obtain ⟨l, hl, hmap⟩ := decodeAll_ok e.fields s.fields hlen hall
  have hlength : l.length = s.fields.length := by
    have h1 : (l.map Prod.fst).length = (s.fields.map Prod.fst).length := by rw [hmap]
    simpa using h1
  refine ⟨l, ?_, ?_, fun nm => by rw [hmap], hlength, hmap⟩
  · rw [Schema.get_fields, if_neg (by omega)]
    exact hl
  · rw [Schema.get_fields_as_tuple, if_neg (by omega)]
    exact hl

/-- Witness for C5 at `wSchema`, `wEntry`. -/
theorem claim_c5_witness :
    ∃ l, Schema.get_fields wSchema wEntry = Res.ok l ∧
      Schema.get_fields_as_tuple wSchema wEntry = Res.ok l ∧
      (∀ nm, nm ∈ l.map Prod.fst ↔ nm ∈ wSchema.fields.map Prod.fst) ∧
      l.length = wSchema.fields.length ∧
      l.map Prod.fst = wSchema.fields.map Prod.fst :=
  claim_c5 wSchema wEntry (by decide)

/-- C6: on a structurally complete entry, both `get_field` and `set_field`
report `NoSuchField(n)` for every name `n` not declared in the schema. -/
theorem claim_c6 (s : Schema) (e : DataEntry) (n : String) (v : Value)
    (hlen : e.fields.length = s.fields.length)
    (hnot : n ∉ s.fields.map Prod.fst) :
    Schema.get_field s e n = Res.err (SchemaError.NoSuchField n) ∧
    (Schema.set_field s e n v).1 = Res.err (SchemaError.NoSuchField n) := by
  have hf : findField s.fields n = none := (findField_isNone s.fields n).mpr hnot
  constructor
  · rw [Schema.get_field, if_neg (by omega)]
    exact getLoop_of_none s.fields 0 e n hf
  · rw [Schema.set_field, if_neg (by omega)]
    rw [setLoop_of_none s.fields 0 e n v.serialize_inner hf]

/-- Witness for C6 at `wSchema`, `wEntry`, absent name "z". -/
theorem claim_c6_witness :
    Schema.get_field wSchema wEntry "z" = Res.err (SchemaError.NoSuchField "z") ∧
    (Schema.set_field wSchema wEntry "z" (Value.Bool true)).1 =
      Res.err (SchemaError.NoSuchField "z") :=
  claim_c6 wSchema wEntry "z" (Value.Bool true) (by decide) (by decide)

/-- C7: for every schema with (per the schema invariant) distinct field
names and every sequence of builder insertions covering every field name,
`build` succeeds and returns the entry whose blob at each position is the
last blob recorded under that position's field name; insertions under
names outside the schema do not affect the result (filtering them away
yields the same entry); the blob count equals the field count. -/
theorem claim_c7 (s : Schema) (ops : List (String × List Nat))
    (hnd : (s.fields.map Prod.fst).Nodup)
    (hcov : ∀ n ∈ s.fields.map Prod.fst, n ∈ ops.map Prod.fst) :
    (applyOps s.build_entry ops).build =
      some ⟨s.fields.map (fun p => (lastWrite ops p.1).getD [])⟩ ∧
    (s.fields.map (fun p => (lastWrite ops p.1).getD [])).length = s.fields.length ∧
    (applyOps s.build_entry
        (ops.filter (fun p => decide (p.1 ∈ s.fields.map Prod.fst)))).build =
      some ⟨s.fields.map (fun p => (lastWrite ops p.1).getD [])⟩ := by
  have hfields : ∀ (ops2 : List (String × List Nat)) (n : String),
      (applyOps s.build_entry ops2).fields n = lastWrite ops2 n := by
    intro ops2 n
    rw [applyOps_fields]
    cases lastWrite ops2 n with
    | some x => rfl
    | none => rfl
  have hsome : ∀ p ∈ s.fields, ((lastWrite ops) p.1).isSome = true := fun p hp =>
    lastWrite_isSome ops p.1 (hcov p.1 (List.mem_map_of_mem Prod.fst hp))
  refine ⟨?_, by simp, ?_⟩
  · rw [EntryBuilder.build, applyOps_schema]
    show Option.map DataEntry.mk (buildLoop s.fields (applyOps s.build_entry ops).fields) = _
    rw [buildLoop_congr _ _ (lastWrite ops) (fun p _ => hfields ops p.1)]
    rw [buildLoop_eq_map s.fields (lastWrite ops) hnd hsome]
    rfl
  · rw [EntryBuilder.build, applyOps_schema]
    show Option.map DataEntry.mk (buildLoop s.fields (applyOps s.build_entry
      (ops.filter (fun p => decide (p.1 ∈ s.fields.map Prod.fst)))).fields) = _
    rw [buildLoop_congr _ _
      (lastWrite (ops.filter (fun p => decide (p.1 ∈ s.fields.map Prod.fst))))
      (fun p _ => hfields _ p.1)]
    rw [buildLoop_congr _ _ (lastWrite ops)
      (fun p hp => lastWrite_filter ops _ p.1 (List.mem_map_of_mem Prod.fst hp))]
    rw [buildLoop_eq_map s.fields (lastWrite ops) hnd hsome]
    rfl

/-- A concrete insertion sequence: writes "a" twice (last wins), writes
"b" once, and writes a name "c" outside the schema. -/
def wOps : List (String × List Nat) := [("a", [1]), ("c", [9]), ("b", [2]), ("a", [7])]

/-- Witness for C7 at `wSchema`, `wOps`. -/
theorem claim_c7_witness :
    (applyOps wSchema.build_entry wOps).build =
      some ⟨wSchema.fields.map (fun p => (lastWrite wOps p.1).getD [])⟩ ∧
    (wSchema.fields.map (fun p => (lastWrite wOps p.1).getD [])).length =
      wSchema.fields.length ∧
    (applyOps wSchema.build_entry
        (wOps.filter (fun p => decide (p.1 ∈ wSchema.fields.map Prod.fst)))).build =
      some ⟨wSchema.fields.map (fun p => (lastWrite wOps p.1).getD [])⟩ :=
  claim_c7 wSchema wOps (by decide) (by decide)

/-- Characterization of the duplicate scan of `SchemaBuilder::add_field`. -/
theorem dupLoop_iff (flds : List (String × ValueType)) (name : String) :
    dupLoop flds name = true ↔ name ∈ flds.map Prod.fst := by
  induction flds with
  | nil => simp [dupLoop]
  | cons hd tl ih =>
    obtain ⟨fname, ftype⟩ := hd
    by_cases h : name = fname
    · simp [dupLoop, h]
    · simp [dupLoop, h, ih]

/-- C8: `SchemaBuilder::add_field` panics (an uncatchable program error,
not a recoverable error value) exactly when the new name duplicates an
already-added field name; on a fresh name it appends the pair and returns
normally. -/
theorem claim_c8 (b : SchemaBuilder) (name : String) (vtype : ValueType) :
    (name ∈ b.fields.map Prod.fst →
      SchemaBuilder.add_field b name vtype = Res.panicked) ∧
    (name ∉ b.fields.map Prod.fst →
      SchemaBuilder.add_field b name vtype =
        Res.ok ⟨b.key, b.fields ++ [(name, vtype)]⟩) := by
  constructor
  · intro hmem
    rw [SchemaBuilder.add_field, if_pos ((dupLoop_iff b.fields name).mpr hmem)]
  · intro hmem
    rw [SchemaBuilder.add_field, if_neg ?_]
    intro hc
    exact hmem ((dupLoop_iff b.fields name).mp hc)

/-- Witness for C8: duplicate name "a" panics, fresh name "b" appends. -/
theorem claim_c8_witness :
    SchemaBuilder.add_field ⟨ValueType.Bool, [("a", ValueType.Bool)]⟩ "a" ValueType.I64 =
      Res.panicked ∧
    SchemaBuilder.add_field ⟨ValueType.Bool, [("a", ValueType.Bool)]⟩ "b" ValueType.I64 =
      Res.ok ⟨ValueType.Bool, [("a", ValueType.Bool), ("b", ValueType.I64)]⟩ :=
  ⟨(claim_c8 ⟨ValueType.Bool, [("a", ValueType.Bool)]⟩ "a" ValueType.I64).1 (by decide),
   (claim_c8 ⟨ValueType.Bool, [("a", ValueType.Bool)]⟩ "b" ValueType.I64).2 (by decide)⟩

/-- C9: the structural length check precedes any name lookup — on an
entry whose blob count differs from the schema field count, `get_field`
and `set_field` return `EncodingError` for every name, including names
absent from the schema (never `NoSuchField`). -/
theorem claim_c9 (s : Schema) (e : DataEntry) (n : String) (v : Value)
    (hlen : e.fields.length ≠ s.fields.length) :
    Schema.get_field s e n = Res.err SchemaError.EncodingError ∧
    (Schema.set_field s e n v).1 = Res.err SchemaError.EncodingError := by
  constructor
  · rw [Schema.get_field, if_pos hlen]
  · rw [Schema.set_field, if_pos hlen]

/-- Witness for C9 at the short entry and a name ("z") that is not in the
schema either. -/
theorem claim_c9_witness :
    Schema.get_field cexSchema cexEntry "z" = Res.err SchemaError.EncodingError ∧
    (Schema.set_field cexSchema cexEntry "z" (Value.Bool true)).1 =
      Res.err SchemaError.EncodingError :=
  claim_c9 cexSchema cexEntry "z" (Value.Bool true) (by decide)

/-- C10: `set_field` is atomic on failure — whenever it returns an error
(`EncodingError` or `NoSuchField`), the entry is byte-for-byte unchanged. -/
theorem claim_c10 (s : Schema) (e : DataEntry) (n : String) (v : Value)
    (er : SchemaError) (h : (Schema.set_field s e n v).1 = Res.err er) :
    (Schema.set_field s e n v).2 = e := by
  rw [Schema.set_field] at h ⊢
  by_cases hlen : e.fields.length ≠ s.fields.length
  · rw [if_pos hlen]
  · rw [if_neg hlen] at h ⊢
    cases hf : findField s.fields n with
    | none => rw [setLoop_of_none s.fields 0 e n _ hf]
    | some p =>
      rw [setLoop_of_found s.fields 0 e n _ p.1 p.2 (by rw [hf])] at h ⊢
      by_cases hin : 0 + p.1 < e.fields.length
      · rw [if_pos hin] at h
        simp at h
      · rw [if_neg hin]

/-- Witness for C10 at the short entry (an `EncodingError` failure). -/
theorem claim_c10_witness :
    (Schema.set_field cexSchema cexEntry "a" (Value.Bool true)).2 = cexEntry :=
  claim_c10 cexSchema cexEntry "a" (Value.Bool true) SchemaError.EncodingError (by decide)
